import Mathlib

/-!
Verification development for the report-ingestion dashboard backend of the
claude-cursor-orchestrator repository.

The Python sources embedded here are `dashboard/backend/ingest.py` (report
ingestion, per-step derivation, cascade deletion) and the aggregation
queries of `dashboard/backend/app.py` (`/api/stats` classification
distribution and the `/api/patterns` self-correction query).

Modelling conventions:
* Python `dict.get(key)` accesses are modelled by `Option` fields; a report
  section that may be absent is a structure whose fields are all `Option`s
  (an absent section behaves exactly like a present-but-empty one, since the
  code only ever reads it through `.get`).
* Python truthiness tests (`if s.get("phase")`, `if not run_id`, ...) treat
  `None` and the empty string / empty list as falsy; `truthy` and
  `truthyList` model this.
* Machine floats that the code merely copies from the report into the store
  are modelled as `Rat`; the only arithmetic performed on them by the
  embedded code (the self-correction rate) is modelled with `Rat.divInt`
  and exact integer arithmetic.
* SQLite rows are Lean structures, tables are lists (insertion ordered),
  and the database is the `Store` structure.  SQL `NULL` is `Option.none`.
-/

namespace Dashboard

/-- Python truthiness on an optional string: `None` and `""` are falsy.
Used for `if s.get(k)` filters and for `if not run_id`. -/
def truthy : Option String → Option String
  | some s => if s = "" then none else some s
  | none => none

/-- Python truthiness on an optional list: `None` and `[]` are falsy.
Used for `json.dumps(x) if x else None`. -/
def truthyList : Option (List String) → Option (List String)
  | some l => if l = [] then none else some l
  | none => none

/-- Embeds `list(dict.fromkeys(xs))`: removes duplicates keeping the first
occurrence of each value, preserving first-seen order.  (Filtering the
recursive result keeps exactly the first occurrences, in order.) -/
def dedupFirstSeen : List String → List String
  | [] => []
  | x :: xs => x :: (dedupFirstSeen xs).filter (fun y => y != x)

/-- Number of occurrences of `t` in `l` (`collections.Counter` count). -/
def countOcc (l : List String) (t : String) : Nat :=
  (l.filter (fun y => y == t)).length

/-- Python string slicing `s[:n]`: the first `n` characters. -/
def pyTake (s : String) (n : Nat) : String := ⟨s.data.take n⟩

/-- SQL `UPPER` / Python `str.upper` restricted to the ASCII uppercasing the
code relies on. -/
def pyUpper (s : String) : String := ⟨s.data.map Char.toUpper⟩

/-! ## Report documents (the parsed `*_full.json` files)

Mirrors the access paths of `ingest.py`: every field that the code reads via
`.get` is an `Option`; sections read via `data.get("section", {})` are
structures of `Option` fields with an all-`none` default. -/

/-- The `summary` block of a report. -/
structure Summary where
  prompt : Option String := none
  status : Option String := none
  duration_minutes : Option Rat := none
  total_steps : Option Int := none
  passed_steps : Option Int := none
  failed_steps : Option Int := none
  total_retries : Option Int := none
  replan_checkpoints : Option Int := none
  replans_triggered : Option Int := none
  success_rate : Option Rat := none
deriving DecidableEq

/-- The `tools_config` block of a report. -/
structure ToolsConfig where
  planner : Option String := none
  implementer : Option String := none
  verifier : Option String := none
  models_used : Option (List String) := none
deriving DecidableEq

/-- The `supabase_specific` block of a report. -/
structure SupabaseSpecific where
  rls_issues : Option Int := none
  migration_issues : Option Int := none
  edge_function_issues : Option Int := none
  auth_issues : Option Int := none
deriving DecidableEq

/-- The `token_usage` block of a report. -/
structure TokenUsage where
  total_input_tokens : Option Int := none
  total_output_tokens : Option Int := none
  total_cache_read_tokens : Option Int := none
  total_cache_creation_tokens : Option Int := none
  total_cost_usd : Option Rat := none
deriving DecidableEq

/-- One entry of the `raw_data.steps` list; the code only reads `step`, `phase` and
`tool` from it. -/
structure RawStep where
  step : Option Int := none
  phase : Option String := none
  tool : Option String := none
deriving DecidableEq

/-- The `raw_data` block of a report. -/
structure RawData where
  steps : List RawStep := []
deriving DecidableEq

/-- One entry of the `step_outcomes` list. -/
structure StepOutcome where
  step : Option Int := none
  build_phase : Option String := none
  final_verdict : Option String := none
  attempts : Option Int := none
  retries : Option Int := none
  duration_seconds : Option Rat := none
  resolution_actions : Option (List String) := none
  input_tokens : Option Int := none
  output_tokens : Option Int := none
  cost_usd : Option Rat := none
deriving DecidableEq

/-- One entry of the `failures.details` list. -/
structure FailureDetail where
  step : Option Int := none
  build_phase : Option String := none
  phase : Option String := none
  category : Option String := none
  error : Option String := none
  exit_code : Option Int := none
deriving DecidableEq

/-- One entry of the `web_searches` list. -/
structure WebSearch where
  step_id : Option String := none
  query : Option String := none
  count : Option Int := none
  timestamp : Option String := none
deriving DecidableEq

/-- A parsed report document.  `failures_details` is
`data.get("failures", {}).get("details", [])`. -/
structure Report where
  run_id : Option String := none
  generated_at : Option String := none
  summary : Summary := {}
  tools_config : ToolsConfig := {}
  supabase_specific : SupabaseSpecific := {}
  token_usage : TokenUsage := {}
  raw_data : RawData := {}
  step_outcomes : List StepOutcome := []
  failures_details : List FailureDetail := []
  web_searches : List WebSearch := []
deriving DecidableEq

/-- A candidate `*_full.json` file: either the JSON parse fails
(`json.JSONDecodeError`) or it yields a report document. -/
inductive ReportFile where
  | malformed
  | parsed (data : Report)
deriving DecidableEq

/-! ## Derivation engine (`ingest.py` helper functions) -/

/-- Embeds `get_raw_steps_for_step_number`: all `raw_data.steps` entries whose
`step` field equals the given step number (Python `==` on the two `.get`
results, so two absent values also match). -/
def get_raw_steps_for_step_number (raw_data : RawData) (step_number : Option Int) :
    List RawStep :=
  raw_data.steps.filter (fun s => s.step == step_number)

/-- Embeds `_extract_phase_from_raw_steps`: dominant phase of a list of raw steps.
`phases` keeps the truthy (non-`None`, non-empty) phase values; when the
deduplicated list has one element Python returns `unique_phases[0]`,
modelled by `head?`. -/
def extract_phase_from_raw_steps (raw_steps : List RawStep) : Option String :=
  if raw_steps = [] then none
  else
    let phases := raw_steps.filterMap (fun s => truthy s.phase)
    if phases = [] then none
    else
      let unique_phases := dedupFirstSeen phases
      if unique_phases.length = 1 then unique_phases.head?
      else some (String.intercalate "," unique_phases)

/-- First element of `l` whose `c`-value is not exceeded later in `l`;
`pickFirstMax c (dedupFirstSeen tools)` models
`Counter(tools).most_common(1)[0][0]`: `Counter` iterates keys in first
insertion order and `most_common` sorts stably by descending count, so the
winner is the first-seen key among those of maximal count. -/
def pickFirstMax (c : String → Nat) : List String → Option String
  | [] => none
  | t :: ts =>
    match pickFirstMax c ts with
    | none => some t
    | some b => if c b > c t then some b else some t

/-- Embeds `_extract_tool_from_raw_steps`: dominant tool of a list of raw steps. -/
def extract_tool_from_raw_steps (raw_steps : List RawStep) : Option String :=
  if raw_steps = [] then none
  else
    let tools := raw_steps.filterMap (fun s => truthy s.tool)
    if tools = [] then none
    else pickFirstMax (countOcc tools) (dedupFirstSeen tools)

/-- Embeds `_get_failures_for_step`: all failure details whose `step` field equals
the given step number. -/
def get_failures_for_step (failures_details : List FailureDetail)
    (step_number : Option Int) : List FailureDetail :=
  failures_details.filter (fun f => f.step == step_number)

/-! ## Store records (rows of the four SQLite tables) -/

/-- A row of the `runs` table (the 27 columns of the `INSERT INTO runs`). -/
structure RunRecord where
  run_id : String
  generated_at : Option String
  prompt : Option String
  status : Option String
  duration_minutes : Option Rat
  total_steps : Option Int
  passed_steps : Option Int
  failed_steps : Option Int
  total_retries : Option Int
  replan_checkpoints : Option Int
  replans_triggered : Option Int
  success_rate : Option Rat
  planner : Option String
  implementer : Option String
  verifier : Option String
  models_used : Option (List String)
  rls_issues : Int
  migration_issues : Int
  edge_function_issues : Int
  auth_issues : Int
  total_input_tokens : Int
  total_output_tokens : Int
  total_cache_read_tokens : Int
  total_cache_creation_tokens : Int
  total_cost_usd : Rat
  ingested_at : String
  classified_at : Option String
deriving DecidableEq

/-- A row of the `steps` table (the 23 columns of the `INSERT INTO steps`).
The JSON-serialized columns (`resolution_actions`, `error_categories`) are
kept structured. -/
structure StepRecord where
  id : String
  run_id : String
  step_number : Option Int
  build_phase : Option String
  phase : Option String
  tool : Option String
  final_verdict : Option String
  attempts : Option Int
  retries : Option Int
  duration_seconds : Option Rat
  resolution_actions : Option (List String)
  error_categories : Option (List String)
  errors_summary : Option String
  classification : Option String
  classification_confidence : Option Rat
  classification_reasoning : Option String
  classification_evidence : Option String
  approach_changed : Option Bool
  same_file_repeated : Option Bool
  error_category_stable : Option Bool
  input_tokens : Int
  output_tokens : Int
  cost_usd : Rat
deriving DecidableEq

/-- A row of the `failures` table. -/
structure FailureRecord where
  run_id : String
  step_number : Option Int
  build_phase : Option String
  phase : Option String
  category : Option String
  error : Option String
  exit_code : Option Int
deriving DecidableEq

/-- A row of the `web_searches` table. -/
structure SearchRecord where
  run_id : String
  step_id : Option String
  query : Option String
  count : Option Int
  timestamp : Option String
deriving DecidableEq

/-- The relational store: the four tables, each in insertion order. -/
structure Store where
  runs : List RunRecord
  steps : List StepRecord
  failures : List FailureRecord
  web_searches : List SearchRecord
deriving DecidableEq

/-- Modelled from the spec: `run_exists` lives in `dashboard/backend/db.py`,
which is not part of the sources; per the spec the run identifier is the
unique primary key of the `runs` table, so existence is membership of the
identifier among the stored runs. -/
def run_exists (st : Store) (run_id : String) : Bool :=
  st.runs.any (fun r => r.run_id == run_id)

/-! ## Persistence writer (`_ingest_single_report`, `_delete_run_data`) -/

/-- Embeds `_delete_run_data`: the four `DELETE ... WHERE run_id = ?` statements,
issued children-first (`web_searches`, `failures`, `steps`, `runs`). -/
def delete_run_data (st : Store) (run_id : String) : Store :=
  let st1 := { st with web_searches := st.web_searches.filter (fun w => !(w.run_id == run_id)) }
  let st2 := { st1 with failures := st1.failures.filter (fun f => !(f.run_id == run_id)) }
  let st3 := { st2 with steps := st2.steps.filter (fun s => !(s.run_id == run_id)) }
  { st3 with runs := st3.runs.filter (fun r => !(r.run_id == run_id)) }

/-- The `runs` row built by `_ingest_single_report` from a report. -/
def mkRunRecord (now : String) (data : Report) (rid : String) : RunRecord where
  run_id := rid
  generated_at := data.generated_at
  prompt := data.summary.prompt
  status := data.summary.status
  duration_minutes := data.summary.duration_minutes
  total_steps := data.summary.total_steps
  passed_steps := data.summary.passed_steps
  failed_steps := data.summary.failed_steps
  total_retries := data.summary.total_retries
  replan_checkpoints := data.summary.replan_checkpoints
  replans_triggered := data.summary.replans_triggered
  success_rate := data.summary.success_rate
  planner := data.tools_config.planner
  implementer := data.tools_config.implementer
  verifier := data.tools_config.verifier
  models_used := truthyList data.tools_config.models_used
  rls_issues := data.supabase_specific.rls_issues.getD 0
  migration_issues := data.supabase_specific.migration_issues.getD 0
  edge_function_issues := data.supabase_specific.edge_function_issues.getD 0
  auth_issues := data.supabase_specific.auth_issues.getD 0
  total_input_tokens := data.token_usage.total_input_tokens.getD 0
  total_output_tokens := data.token_usage.total_output_tokens.getD 0
  total_cache_read_tokens := data.token_usage.total_cache_read_tokens.getD 0
  total_cache_creation_tokens := data.token_usage.total_cache_creation_tokens.getD 0
  total_cost_usd := data.token_usage.total_cost_usd.getD 0
  ingested_at := now
  classified_at := none

/-- The derived step identifier `f"{run_id}_{step_number}"`; an absent step
number prints as Python `None`. -/
def stepIdOf (rid : String) (step : Option Int) : String :=
  rid ++ "_" ++ (match step with | some n => toString n | none => "None")

/-- The `steps` row built by `_ingest_single_report` for one step outcome:
derived phase/tool from the matching raw steps, deduplicated error
categories, and the pipe-joined error summary truncated to 1000 characters
after joining.  Python's `list(set(...))` order is unspecified; the model
uses first-seen order. -/
def mkStepRecord (data : Report) (rid : String) (so : StepOutcome) : StepRecord :=
  let raw_steps := get_raw_steps_for_step_number data.raw_data so.step
  let step_failures := get_failures_for_step data.failures_details so.step
  let error_categories :=
    dedupFirstSeen (step_failures.filterMap (fun f => truthy f.category))
  let error_messages := step_failures.filterMap (fun f => truthy f.error)
  { id := stepIdOf rid so.step
    run_id := rid
    step_number := so.step
    build_phase := so.build_phase
    phase := extract_phase_from_raw_steps raw_steps
    tool := extract_tool_from_raw_steps raw_steps
    final_verdict := so.final_verdict
    attempts := so.attempts
    retries := so.retries
    duration_seconds := so.duration_seconds
    resolution_actions := truthyList so.resolution_actions
    error_categories := if error_categories = [] then none else some error_categories
    errors_summary :=
      if error_messages = [] then none
      else some (pyTake (String.intercalate " | " error_messages) 1000)
    classification := none
    classification_confidence := none
    classification_reasoning := none
    classification_evidence := none
    approach_changed := none
    same_file_repeated := none
    error_category_stable := none
    input_tokens := so.input_tokens.getD 0
    output_tokens := so.output_tokens.getD 0
    cost_usd := so.cost_usd.getD 0 }

/-- The `failures` row built by `_ingest_single_report` for one failure
detail. -/
def mkFailureRecord (rid : String) (f : FailureDetail) : FailureRecord where
  run_id := rid
  step_number := f.step
  build_phase := f.build_phase
  phase := f.phase
  category := f.category
  error := f.error
  exit_code := f.exit_code

/-- The `web_searches` row built by `_ingest_single_report` for one web
search entry. -/
def mkSearchRecord (rid : String) (ws : WebSearch) : SearchRecord where
  run_id := rid
  step_id := ws.step_id
  query := ws.query
  count := ws.count
  timestamp := ws.timestamp

/-- Modelled from the spec: the `runs` primary key lives in the missing
`db.py` schema; inserting a run whose identifier already exists raises a
uniqueness violation (spec 4.3). -/
def insertRun (st : Store) (r : RunRecord) : Except String Store :=
  if st.runs.any (fun x => x.run_id == r.run_id) then
    .error "UNIQUE constraint failed: runs.run_id"
  else .ok { st with runs := st.runs ++ [r] }

/-- Modelled from the spec: the `steps` table's primary key is the derived
step identifier (spec 3: composite identity (run, step number) with derived
id string); inserting a duplicate id raises a uniqueness violation. -/
def insertStep (st : Store) (s : StepRecord) : Except String Store :=
  if st.steps.any (fun x => x.id == s.id) then
    .error "UNIQUE constraint failed: steps.id"
  else .ok { st with steps := st.steps ++ [s] }

/-- The `for step_outcome in step_outcomes` insertion loop. -/
def insertStepList (st : Store) : List StepRecord → Except String Store
  | [] => .ok st
  | s :: rest =>
    match insertStep st s with
    | .ok st1 => insertStepList st1 rest
    | .error e => .error e

/-- Embeds `_ingest_single_report`: reads `data["run_id"]` (a `KeyError` when the
field is absent), then inserts one `runs` row, one `steps` row per step
outcome, one `failures` row per failure detail and one `web_searches` row
per search entry.  The failure and search inserts have no uniqueness
constraint, so they are plain appends. -/
def ingest_single_report (now : String) (st : Store) (data : Report) :
    Except String Store :=
  match data.run_id with
  | none => .error "KeyError: run_id"
  | some rid =>
    match insertRun st (mkRunRecord now data rid) with
    | .error e => .error e
    | .ok st1 =>
      match insertStepList st1 (data.step_outcomes.map (mkStepRecord data rid)) with
      | .error e => .error e
      | .ok st2 =>
        .ok { st2 with
          failures := st2.failures ++ data.failures_details.map (mkFailureRecord rid)
          web_searches := st2.web_searches ++ data.web_searches.map (mkSearchRecord rid) }

/-! ## Ingestion orchestrator (`ingest_reports`) -/

/-- Terminal outcome of one candidate file (the three counters). -/
inductive Outcome where
  | ingested
  | skipped
  | errored
deriving DecidableEq

/-- The body of the `for report_path in report_files` loop for one file:
peek at the run id (missing or falsy ⇒ error), skip when the run already
exists and `force` is unset, otherwise delete-and-reingest (force) or ingest
inside one transaction.  Modelled from the spec where the transaction
machinery lives in the missing `db.py`: `with get_db() as conn` plus the
single `conn.commit()` make the per-file writes atomic, so a write failure
leaves the store exactly as before the file (spec 4.3, 5). -/
def processFile (force : Bool) (now : String) (st : Store) (f : ReportFile) :
    Store × Outcome :=
  match f with
  | .malformed => (st, .errored)
  | .parsed data =>
    match truthy data.run_id with
    | none => (st, .errored)
    | some rid =>
      if !force && run_exists st rid then (st, .skipped)
      else
        let st0 := if force && run_exists st rid then delete_run_data st rid else st
        match ingest_single_report now st0 data with
        | .ok st1 => (st1, .ingested)
        | .error _ => (st, .errored)

/-- The file loop of `ingest_reports`, returning the final store and the
per-file outcomes in file order. -/
def ingestList (force : Bool) (now : String) (st : Store) :
    List ReportFile → Store × List Outcome
  | [] => (st, [])
  | f :: fs =>
    let p := processFile force now st f
    let rest := ingestList force now p.1 fs
    (rest.1, p.2 :: rest.2)

/-- The result counters `{"ingested": N, "skipped": N, "errors": N}`. -/
structure Counts where
  ingested : Nat
  skipped : Nat
  errors : Nat
deriving DecidableEq

/-- Accumulate the three counters from the per-file outcomes. -/
def tally : List Outcome → Counts
  | [] => ⟨0, 0, 0⟩
  | o :: os =>
    let c := tally os
    match o with
    | .ingested => { c with ingested := c.ingested + 1 }
    | .skipped => { c with skipped := c.skipped + 1 }
    | .errored => { c with errors := c.errors + 1 }

/-- Embeds `ingest_reports`: zero counts and an untouched store when the reports
directory is missing or no `*_full.json` file matches; otherwise process
every discovered file.  Directory existence and the glob result are
parameters (filesystem state). -/
def ingest_reports (force : Bool) (now : String) (dirExists : Bool)
    (files : List ReportFile) (st : Store) : Store × Counts :=
  if !dirExists then (st, ⟨0, 0, 0⟩)
  else if files.isEmpty then (st, ⟨0, 0, 0⟩)
  else
    let r := ingestList force now st files
    (r.1, tally r.2)

/-! ## Query layer: `/api/stats` classification distribution (`get_stats`) -/

/-- ASCII lowercase, modelling Python `str.lower` on the label strings the
code compares against. -/
def pyLower (s : String) : String := ⟨s.data.map Char.toLower⟩

/-- The five-bucket classification distribution dictionary of `get_stats`. -/
structure ClassificationCounts where
  architectural : Nat
  implementation : Nat
  clean_pass : Nat
  ambiguous : Nat
  pending : Nat
deriving DecidableEq

/-- The rows of
`SELECT COALESCE(classification, 'pending'), COUNT(*) FROM steps GROUP BY
COALESCE(classification, 'pending')`.  SQLite does not fix the group output
order; the model lists groups in order of first appearance. -/
def classificationRows (st : Store) : List (String × Nat) :=
  let keys := st.steps.map (fun s => s.classification.getD "pending")
  (dedupFirstSeen keys).map (fun k => (k, countOcc keys k))

/-- One iteration of the `for row in classification_rows` loop:
`cls = (row[0] or "pending").lower()`, then assignment into the bucket when
`cls` is a known key, else the (unreachable) `cls == ""` accumulation. -/
def applyClassificationRow (cc : ClassificationCounts) (row : String × Nat) :
    ClassificationCounts :=
  let cls := pyLower (if row.1 = "" then "pending" else row.1)
  if cls = "architectural" then { cc with architectural := row.2 }
  else if cls = "implementation" then { cc with implementation := row.2 }
  else if cls = "clean_pass" then { cc with clean_pass := row.2 }
  else if cls = "ambiguous" then { cc with ambiguous := row.2 }
  else if cls = "pending" then { cc with pending := row.2 }
  else if cls = "" then { cc with pending := cc.pending + row.2 }
  else cc

/-- The `classification_counts` value computed by `get_stats`. -/
def classification_counts (st : Store) : ClassificationCounts :=
  (classificationRows st).foldl applyClassificationRow ⟨0, 0, 0, 0, 0⟩

/-! ## Query layer: `/api/patterns` self-correction block (`get_patterns`) -/

/-- SQL `=` on two nullable integers: `NULL` never compares equal. -/
def sqlEq (a b : Option Int) : Bool :=
  match a, b with
  | some x, some y => x == y
  | _, _ => false

/-- Embeds `category IS NOT NULL AND category != ''`. -/
def sqlNonEmpty (s : Option String) : Bool :=
  match s with
  | some v => v != ""
  | none => false

/-- Embeds `s.retries > 0` (false on SQL `NULL`). -/
def retriesPos (s : StepRecord) : Bool :=
  match s.retries with
  | some r => decide (0 < r)
  | none => false

/-- Embeds `UPPER(s.final_verdict) IN ('PROCEED', 'PASS')` (false on `NULL`). -/
def verdictSelfCorrected (s : StepRecord) : Bool :=
  match s.final_verdict with
  | some v => pyUpper v == "PROCEED" || pyUpper v == "PASS"
  | none => false

/-- Embeds `UPPER(s.final_verdict) IN ('FAIL', 'SKIP')` (false on `NULL`). -/
def verdictFailed (s : StepRecord) : Bool :=
  match s.final_verdict with
  | some v => pyUpper v == "FAIL" || pyUpper v == "SKIP"
  | none => false

/-- The joined rows of the self-correction query:
`failures f JOIN steps s ON f.run_id = s.run_id AND f.step_number =
s.step_number WHERE f.category IS NOT NULL AND f.category != '' AND
s.retries > 0`, enumerated failure-major. -/
def scJoinRows (st : Store) : List (FailureRecord × StepRecord) :=
  st.failures.flatMap (fun f =>
    (st.steps.filter (fun s =>
      (f.run_id == s.run_id) && sqlEq f.step_number s.step_number
        && sqlNonEmpty f.category && retriesPos s)).map (fun s => (f, s)))

/-- One output row of the self-correction query. -/
structure SCRow where
  category : String
  total : Nat
  self_corrected : Nat
  failed : Nat
  rate : Rat
deriving DecidableEq

/-- Round `a / b` (with `b > 0`) to the nearest integer, halves to even —
the documented behaviour of Python's `round` (exact decimal semantics; the
binary-float representation error of CPython is not modelled). -/
def roundHalfEvenDiv (a b : Int) : Int :=
  let f := Int.fdiv a b
  let r := a - f * b
  if 2 * r < b then f
  else if b < 2 * r then f + 1
  else if f % 2 = 0 then f else f + 1

/-- Python `round(q, 3)`. -/
def py_round3 (q : Rat) : Rat :=
  Rat.divInt (roundHalfEvenDiv (q.num * 1000) (q.den : Int)) 1000

/-- The aggregates of one `GROUP BY f.category` group:
`COUNT(DISTINCT s.id)` for `total`, plain `SUM`s over the join rows for
`self_corrected` and `failed`, and `rate = self_corrected / total` (true
division, modelled by `Rat.divInt`) rounded to three decimals. -/
def selfCorrectionFor (rows : List (FailureRecord × StepRecord)) (cat : String) :
    SCRow :=
  let catRows := rows.filter (fun r => r.1.category == some cat)
  let total := (dedupFirstSeen (catRows.map (fun r => r.2.id))).length
  let sc := (catRows.filter (fun r => retriesPos r.2 && verdictSelfCorrected r.2)).length
  let fl := (catRows.filter (fun r => retriesPos r.2 && verdictFailed r.2)).length
  let rate : Rat := if 0 < total then Rat.divInt sc total else 0
  ⟨cat, total, sc, fl, py_round3 rate⟩

/-- Stable insertion into a list sorted by `total` descending. -/
def insertByTotalDesc (x : SCRow) : List SCRow → List SCRow
  | [] => [x]
  | y :: ys => if y.total < x.total then x :: y :: ys else y :: insertByTotalDesc x ys

/-- Stable sort by `total` descending (`ORDER BY total DESC`). -/
def sortByTotalDesc : List SCRow → List SCRow
  | [] => []
  | x :: xs => insertByTotalDesc x (sortByTotalDesc xs)

/-- The `self_correction` list of `get_patterns`: one row per distinct
category among the join rows (first-appearance order), ordered by `total`
descending. -/
def self_correction (st : Store) : List SCRow :=
  let rows := scJoinRows st
  sortByTotalDesc
    ((dedupFirstSeen (rows.filterMap (fun r => r.1.category))).map
      (selfCorrectionFor rows))

/-! ## Claim-side definitions (written from the claims, for comparison) -/

/-- Written from claim C2: the record set a successful single-report
ingestion adds on top of the base store — exactly one run record, one step
record per step-outcome entry, one failure record per failure detail and one
search record per web-search entry. -/
def expectedIngest (now : String) (data : Report) (rid : String) (base : Store) :
    Store where
  runs := base.runs ++ [mkRunRecord now data rid]
  steps := base.steps ++ data.step_outcomes.map (mkStepRecord data rid)
  failures := base.failures ++ data.failures_details.map (mkFailureRecord rid)
  web_searches := base.web_searches ++ data.web_searches.map (mkSearchRecord rid)

/-- Helper for the literal reading of claim C4: the shared phase value when
every matching sub-step carries that same phase value. -/
def allSharePhase : List RawStep → Option String
  | [] => none
  | s :: rest =>
    match s.phase with
    | some p => if rest.all (fun t => t.phase == some p) then some p else none
    | none => none

/-- Written from claim C4, literally: `None` for zero matching sub-steps;
the shared value when all sub-steps share one phase value; otherwise the
comma-join of the distinct phase values in first-seen order. -/
def dominantPhaseClaim (raw_steps : List RawStep) : Option String :=
  if raw_steps = [] then none
  else
    match allSharePhase raw_steps with
    | some p => some p
    | none =>
      some (String.intercalate ","
        (dedupFirstSeen (raw_steps.filterMap (fun s => s.phase))))

/-- The amended form of claim C4: `None` when no matching sub-step carries a
non-empty phase (in particular for zero matching sub-steps); when the
non-empty phase values all coincide, that value; otherwise the comma-joined
distinct non-empty phase values in first-seen order. -/
def dominantPhaseAmended (raw_steps : List RawStep) : Option String :=
  match dedupFirstSeen (raw_steps.filterMap (fun s => truthy s.phase)) with
  | [] => none
  | [p] => some p
  | ps => some (String.intercalate "," ps)

/-- Written from claim C7: the first tool value, in order of first
encounter among the non-empty tool values of the matching sub-steps, whose
occurrence count is maximal — i.e. the most frequent tool with ties broken
in favour of the tool first encountered; `None` when there is no such
value. -/
def dominantToolClaim (raw_steps : List RawStep) : Option String :=
  let tools := raw_steps.filterMap (fun s => truthy s.tool)
  tools.find? (fun u => decide (∀ v ∈ tools, countOcc tools v ≤ countOcc tools u))

/-! ## Concrete fixtures used by the witnesses and failing inputs -/

/-- Store growth: every run and every step record of `A` is also in `B`.
Non-forced processing only appends records, so stores grow along a batch,
and both the skip test and the uniqueness conflicts are monotone under this
order. -/
def StoreSub (A B : Store) : Prop :=
  (∀ r ∈ A.runs, r ∈ B.runs) ∧ (∀ s ∈ A.steps, s ∈ B.steps)

/-- Report used in the witness for claim C5. -/
def c5Data : Report :=
  { failures_details :=
      [ { step := some 1, error := some "boom" }
      , { step := some 1, error := some "bang" }
      , { step := some 2, error := some "zap" }
      , { step := some 1, error := some "" } ] }

/-- Store used in the witness for claim C8. -/
def c8Store : Store :=
  ⟨ [mkRunRecord "t0" { run_id := some "a" } "a", mkRunRecord "t0" { run_id := some "b" } "b"]
  , [mkStepRecord {} "a" { step := some 1 }, mkStepRecord {} "b" { step := some 1 }]
  , [⟨"a", some 1, none, none, some "t", some "e", none⟩]
  , [⟨"a", none, none, none, none⟩] ⟩

/-- Failing input for claim C9: two steps with `NULL` classification and one
with the empty-string classification. -/
def c9Store : Store :=
  ⟨ []
  , [ mkStepRecord {} "r" { step := some 1 }
    , mkStepRecord {} "r" { step := some 2 }
    , { mkStepRecord {} "r" { step := some 3 } with classification := some "" } ]
  , []
  , [] ⟩

/-- Failing input for claim C6: one retried step with final verdict `PASS`
carrying two failures of the same category `timeout`. -/
def c6Store : Store :=
  ⟨ []
  , [ mkStepRecord {} "r1" { step := some 1, retries := some 1, final_verdict := some "PASS" } ]
  , [ ⟨"r1", some 1, none, none, some "timeout", some "boom", none⟩
    , ⟨"r1", some 1, none, none, some "timeout", some "boom again", none⟩ ]
  , [] ⟩

/-- Report used in the witness for claim C1. -/
def c1Data : Report :=
  { run_id := some "w1"
  , step_outcomes := [{ step := some 1 }]
  , failures_details := []
  , web_searches := [] }

/-- Report used in the witness for claim C2. -/
def c2Data : Report :=
  { run_id := some "r1"
  , step_outcomes := [{ step := some 1 }, { step := some 2 }]
  , failures_details := [{ step := some 1, category := some "t", error := some "x" }]
  , web_searches := [{ query := some "q" }] }

/-- Store with an orphan step whose id collides with the one `c2Data` would
write, so the step insert fails and the transaction rolls back. -/
def c2ConflictStore : Store :=
  ⟨[], [mkStepRecord c2Data "r1" { step := some 1 }], [], []⟩

/-! ## Lemmas about the helpers -/

theorem dedupFirstSeen_eq_nil (l : List String) : dedupFirstSeen l = [] ↔ l = [] := by
  cases l with
  | nil => simp [dedupFirstSeen]
  | cons x xs => simp [dedupFirstSeen]

theorem mem_dedupFirstSeen (a : String) : ∀ l : List String,
    a ∈ dedupFirstSeen l ↔ a ∈ l
  | [] => by simp [dedupFirstSeen]
  | x :: xs => by
    rw [dedupFirstSeen]
    by_cases h : a = x
    · subst h; simp
    · simp only [List.mem_cons, h, false_or]
      rw [List.mem_filter]
      rw [mem_dedupFirstSeen a xs]
      simp only [bne_iff_ne, ne_eq, h, not_false_eq_true, and_true, decide_not]

theorem bool_ne_true {b : Bool} (h : b = false) : ¬ b = true := by simp [h]

theorem find?_congr_mem (p q : String → Bool) :
    ∀ l : List String, (∀ u ∈ l, p u = q u) → List.find? p l = List.find? q l
  | [], _ => rfl
  | x :: xs, h => by
    have hx : p x = q x := h x (List.mem_cons_self x xs)
    have hrest := find?_congr_mem p q xs (fun u hu => h u (List.mem_cons_of_mem x hu))
    cases hq : q x with
    | true =>
      rw [List.find?_cons_of_pos _ (hx.trans hq), List.find?_cons_of_pos _ hq]
    | false =>
      rw [List.find?_cons_of_neg _ (bool_ne_true (hx.trans hq)),
        List.find?_cons_of_neg _ (bool_ne_true hq)]
      exact hrest

theorem find?_filter_bne (p : String → Bool) (x : String) (hx : p x = false) :
    ∀ xs : List String,
      List.find? p (xs.filter (fun y => y != x)) = List.find? p xs
  | [] => rfl
  | y :: ys => by
    rw [List.filter_cons]
    by_cases hyx : y = x
    · have hpy : p y = false := by rw [hyx]; exact hx
      have hb : (y != x) = false := by simp [hyx]
      simp only [hb, Bool.false_eq_true, if_false]
      rw [List.find?_cons_of_neg _ (bool_ne_true hpy)]
      exact find?_filter_bne p x hx ys
    · have hb : (y != x) = true := bne_iff_ne.mpr hyx
      simp only [hb, if_true]
      cases hpy : p y with
      | true => rw [List.find?_cons_of_pos _ hpy, List.find?_cons_of_pos _ hpy]
      | false =>
        rw [List.find?_cons_of_neg _ (bool_ne_true hpy),
          List.find?_cons_of_neg _ (bool_ne_true hpy)]
        exact find?_filter_bne p x hx ys

theorem find?_dedupFirstSeen (p : String → Bool) : ∀ l : List String,
    List.find? p (dedupFirstSeen l) = List.find? p l
  | [] => by rw [dedupFirstSeen]
  | x :: xs => by
    rw [dedupFirstSeen]
    cases hp : p x with
    | true => rw [List.find?_cons_of_pos _ hp, List.find?_cons_of_pos _ hp]
    | false =>
      rw [List.find?_cons_of_neg _ (bool_ne_true hp),
        List.find?_cons_of_neg _ (bool_ne_true hp)]
      rw [find?_filter_bne p x hp (dedupFirstSeen xs)]
      exact find?_dedupFirstSeen p xs

theorem pickFirstMax_eq_none (c : String → Nat) (l : List String) :
    pickFirstMax c l = none ↔ l = [] := by
  cases l with
  | nil => simp [pickFirstMax]
  | cons t ts =>
    cases hm : pickFirstMax c ts with
    | none => simp [pickFirstMax, hm]
    | some b =>
      simp only [pickFirstMax, hm]
      split <;> simp

theorem pickFirstMax_spec (c : String → Nat) :
    ∀ (l : List String) (b : String), pickFirstMax c l = some b →
      b ∈ l ∧ ∀ v ∈ l, c v ≤ c b
  | [], b => by simp [pickFirstMax]
  | t :: ts, b => by
    cases hm : pickFirstMax c ts with
    | none =>
      simp only [pickFirstMax, hm]
      intro hb
      obtain rfl : t = b := by simpa using hb
      have hts : ts = [] := (pickFirstMax_eq_none c ts).mp hm
      subst hts
      simp
    | some b0 =>
      have ih := pickFirstMax_spec c ts b0 hm
      simp only [pickFirstMax, hm]
      intro hb
      by_cases hgt : c t < c b0
      · rw [if_pos hgt] at hb
        obtain rfl : b0 = b := by simpa using hb
        refine ⟨List.mem_cons_of_mem _ ih.1, ?_⟩
        intro v hv
        rcases List.mem_cons.mp hv with rfl | hv
        · exact Nat.le_of_lt hgt
        · exact ih.2 v hv
      · rw [if_neg hgt] at hb
        obtain rfl : t = b := by simpa using hb
        refine ⟨List.mem_cons_self _ _, ?_⟩
        intro v hv
        rcases List.mem_cons.mp hv with rfl | hv
        · exact Nat.le_refl _
        · exact Nat.le_trans (ih.2 v hv) (Nat.le_of_not_lt hgt)

theorem pickFirstMax_eq_find? (c : String → Nat) :
    ∀ l : List String,
      pickFirstMax c l = List.find? (fun u => decide (∀ v ∈ l, c v ≤ c u)) l
  | [] => rfl
  | t :: ts => by
    cases hm : pickFirstMax c ts with
    | none =>
      have hts : ts = [] := (pickFirstMax_eq_none c ts).mp hm
      subst hts
      have hPt : (decide (∀ v ∈ [t], c v ≤ c t)) = true := by simp
      simp only [pickFirstMax, List.find?_cons, hPt]
    | some b =>
      have ih := pickFirstMax_eq_find? c ts
      rw [hm] at ih
      have hspec := pickFirstMax_spec c ts b hm
      simp only [pickFirstMax, hm]
      by_cases hgt : c t < c b
      · rw [if_pos hgt]
        have hPt : (decide (∀ v ∈ t :: ts, c v ≤ c t)) = false := by
          simp only [decide_eq_false_iff_not]
          intro hall
          exact absurd (hall b (List.mem_cons_of_mem _ hspec.1)) (Nat.not_le_of_lt hgt)
        simp only [List.find?_cons, hPt]
        have hcong :
            List.find? (fun u => decide (∀ v ∈ t :: ts, c v ≤ c u)) ts
              = List.find? (fun u => decide (∀ v ∈ ts, c v ≤ c u)) ts := by
          apply find?_congr_mem
          intro u hu
          apply decide_eq_decide.mpr
          constructor
          · intro hall v hv
            exact hall v (List.mem_cons_of_mem _ hv)
          · intro hall v hv
            rcases List.mem_cons.mp hv with rfl | hv
            · exact Nat.le_trans (Nat.le_of_lt hgt) (hall b hspec.1)
            · exact hall v hv
        rw [hcong]
        exact ih
      · rw [if_neg hgt]
        have hPt : (decide (∀ v ∈ t :: ts, c v ≤ c t)) = true := by
          simp only [decide_eq_true_eq]
          intro v hv
          rcases List.mem_cons.mp hv with rfl | hv
          · exact Nat.le_refl _
          · exact Nat.le_trans (hspec.2 v hv) (Nat.le_of_not_lt hgt)
        simp only [List.find?_cons, hPt]

/-- For any tool list, the `Counter.most_common` pick equals the first
maximally-frequent element (in first-encounter order) of the list. -/
theorem pickFirstMax_dedup_eq_find? (tools : List String) :
    pickFirstMax (countOcc tools) (dedupFirstSeen tools)
      = List.find?
          (fun u => decide (∀ v ∈ tools, countOcc tools v ≤ countOcc tools u))
          tools := by
  rw [pickFirstMax_eq_find?]
  have hcong :
      List.find?
          (fun u => decide (∀ v ∈ dedupFirstSeen tools,
            countOcc tools v ≤ countOcc tools u))
          (dedupFirstSeen tools)
        = List.find?
            (fun u => decide (∀ v ∈ tools, countOcc tools v ≤ countOcc tools u))
            (dedupFirstSeen tools) := by
    apply find?_congr_mem
    intro u _
    apply decide_eq_decide.mpr
    constructor
    · intro hall v hv
      exact hall v ((mem_dedupFirstSeen v tools).mpr hv)
    · intro hall v hv
      exact hall v ((mem_dedupFirstSeen v tools).mp hv)
  rw [hcong]
  exact find?_dedupFirstSeen _ tools

/-- The dominant-tool derivation agrees with the claim-side description on
every raw-step list. -/
theorem extract_tool_eq_claim (raw_steps : List RawStep) :
    extract_tool_from_raw_steps raw_steps = dominantToolClaim raw_steps := by
  unfold extract_tool_from_raw_steps dominantToolClaim
  by_cases h0 : raw_steps = []
  · subst h0
    simp
  · simp only [h0, if_false]
    by_cases ht : raw_steps.filterMap (fun s => truthy s.tool) = []
    · simp [ht]
    · simp only [ht, if_false]
      exact pickFirstMax_dedup_eq_find? _

theorem extract_tool_eq_none_iff (raw_steps : List RawStep) :
    extract_tool_from_raw_steps raw_steps = none ↔
      raw_steps.filterMap (fun s => truthy s.tool) = [] := by
  unfold extract_tool_from_raw_steps
  by_cases h0 : raw_steps = []
  · subst h0
    simp
  · simp only [h0, if_false]
    by_cases ht : raw_steps.filterMap (fun s => truthy s.tool) = []
    · simp [ht]
    · simp only [ht, if_false, iff_false]
      intro hnone
      exact ht (by
        have := (pickFirstMax_eq_none _ _).mp hnone
        exact (dedupFirstSeen_eq_nil _).mp this)

/-- The dominant-phase derivation agrees with the amended claim on every
raw-step list. -/
theorem extract_phase_eq_amended (raw_steps : List RawStep) :
    extract_phase_from_raw_steps raw_steps = dominantPhaseAmended raw_steps := by
  unfold extract_phase_from_raw_steps dominantPhaseAmended
  by_cases h0 : raw_steps = []
  · subst h0
    simp [dedupFirstSeen]
  · simp only [h0, if_false]
    by_cases hph : raw_steps.filterMap (fun s => truthy s.phase) = []
    · simp [hph, dedupFirstSeen]
    · simp only [hph, if_false]
      have hd : dedupFirstSeen (raw_steps.filterMap (fun s => truthy s.phase)) ≠ [] :=
        fun h => hph ((dedupFirstSeen_eq_nil _).mp h)
      cases hm : dedupFirstSeen (raw_steps.filterMap (fun s => truthy s.phase)) with
      | nil => exact absurd hm hd
      | cons p rest =>
        cases rest with
        | nil => simp
        | cons q rest2 => simp

theorem pyTake_length_le (s : String) (n : Nat) : (pyTake s n).length ≤ n := by
  have h : (pyTake s n).length = (s.data.take n).length := rfl
  rw [h, List.length_take]
  exact min_le_left _ _

/-! ## Claim theorems -/

/-- Claim C4 (corrected), counterexample to the claim as stated: for the
single matching sub-step carrying no phase value, the code derives `None`,
while the claim's case analysis ("otherwise the comma-joined sequence of
distinct phase values in order of first appearance") yields the empty
string, since there are matching sub-steps and they do not all share one
phase value. -/
theorem c4_counterexample :
    extract_phase_from_raw_steps
        (get_raw_steps_for_step_number ⟨[⟨some 1, none, none⟩]⟩ (some 1)) = none
    ∧ dominantPhaseClaim
        (get_raw_steps_for_step_number ⟨[⟨some 1, none, none⟩]⟩ (some 1)) = some ""
    ∧ extract_phase_from_raw_steps
        (get_raw_steps_for_step_number ⟨[⟨some 1, none, none⟩]⟩ (some 1))
      ≠ dominantPhaseClaim
        (get_raw_steps_for_step_number ⟨[⟨some 1, none, none⟩]⟩ (some 1)) := by
  refine ⟨by decide, by decide, by decide⟩

/-- Claim C4 (amended): for every step number, the derived phase of the
matching sub-steps is `None` when no matching sub-step carries a non-empty
phase (in particular when there are zero matching sub-steps); when the
non-empty phase values all coincide it is that value; otherwise it is the
comma-joined sequence of distinct non-empty phase values in order of first
appearance. -/
theorem c4_dominant_phase (raw_data : RawData) (n : Option Int) :
    extract_phase_from_raw_steps (get_raw_steps_for_step_number raw_data n)
      = dominantPhaseAmended (get_raw_steps_for_step_number raw_data n) :=
  extract_phase_eq_amended _

/-- Claim C5: the stored errors summary of a step record is the ` | `-joined
concatenation of the non-empty error messages of the failure records whose
step field equals the step number, truncated to its first 1000 characters
after joining, and hence never longer than 1000 characters; it is unset
exactly when every such message is empty or absent. -/
theorem c5_errors_summary (data : Report) (rid : String) (so : StepOutcome) :
    ((mkStepRecord data rid so).errors_summary = none ↔
      (get_failures_for_step data.failures_details so.step).filterMap
        (fun f => truthy f.error) = [])
    ∧ (∀ s, (mkStepRecord data rid so).errors_summary = some s →
        s = pyTake (String.intercalate " | "
              ((get_failures_for_step data.failures_details so.step).filterMap
                (fun f => truthy f.error))) 1000
          ∧ s.length ≤ 1000) := by
  have hsum : (mkStepRecord data rid so).errors_summary
      = if (get_failures_for_step data.failures_details so.step).filterMap
            (fun f => truthy f.error) = [] then none
        else some (pyTake (String.intercalate " | "
          ((get_failures_for_step data.failures_details so.step).filterMap
            (fun f => truthy f.error))) 1000) := rfl
  constructor
  · rw [hsum]
    split <;> simp_all
  · intro s hs
    rw [hsum] at hs
    by_cases h : (get_failures_for_step data.failures_details so.step).filterMap
        (fun f => truthy f.error) = []
    · rw [if_pos h] at hs
      exact absurd hs (by simp)
    · rw [if_neg h] at hs
      have heq := (Option.some.inj hs).symm
      exact ⟨heq, heq ▸ pyTake_length_le _ _⟩

theorem c5_witness :
    (mkStepRecord c5Data "r" { step := some 1 }).errors_summary = some "boom | bang"
    ∧ ("boom | bang" : String).length ≤ 1000 := by
  have h := c5_errors_summary c5Data "r" { step := some 1 }
  have hv : (mkStepRecord c5Data "r" { step := some 1 }).errors_summary
      = some "boom | bang" := by decide
  exact ⟨hv, (h.2 "boom | bang" hv).2⟩

/-- Claim C7: for every step number, the derived tool of the matching
sub-steps is the first tool value, in order of first encounter among the
non-empty tool values, whose occurrence count is maximal — the most frequent
tool with ties broken in favour of the tool first encountered — and it is
`None` exactly when no matching sub-step carries a non-empty tool value (in
particular when there are zero matching sub-steps). -/
theorem c7_dominant_tool (raw_data : RawData) (n : Option Int) :
    extract_tool_from_raw_steps (get_raw_steps_for_step_number raw_data n)
      = dominantToolClaim (get_raw_steps_for_step_number raw_data n)
    ∧ (extract_tool_from_raw_steps (get_raw_steps_for_step_number raw_data n) = none
        ↔ (get_raw_steps_for_step_number raw_data n).filterMap
            (fun s => truthy s.tool) = []) :=
  ⟨extract_tool_eq_claim _, extract_tool_eq_none_iff _⟩

/-- Claim C8: deleting a run removes exactly the web-search, failure, step
and run records whose run identifier matches (children before parent, per
the sequencing in `delete_run_data`), and leaves every record of every other
run in place. -/
theorem c8_cascade_delete (st : Store) (rid : String) :
    ((delete_run_data st rid).web_searches
        = st.web_searches.filter (fun w => !(w.run_id == rid)))
    ∧ ((delete_run_data st rid).failures
        = st.failures.filter (fun f => !(f.run_id == rid)))
    ∧ ((delete_run_data st rid).steps
        = st.steps.filter (fun s => !(s.run_id == rid)))
    ∧ ((delete_run_data st rid).runs
        = st.runs.filter (fun r => !(r.run_id == rid)))
    ∧ (∀ w, w ∈ (delete_run_data st rid).web_searches ↔
        w ∈ st.web_searches ∧ w.run_id ≠ rid)
    ∧ (∀ f, f ∈ (delete_run_data st rid).failures ↔
        f ∈ st.failures ∧ f.run_id ≠ rid)
    ∧ (∀ s, s ∈ (delete_run_data st rid).steps ↔
        s ∈ st.steps ∧ s.run_id ≠ rid)
    ∧ (∀ r, r ∈ (delete_run_data st rid).runs ↔
        r ∈ st.runs ∧ r.run_id ≠ rid) := by
  refine ⟨rfl, rfl, rfl, rfl, ?_, ?_, ?_, ?_⟩ <;> intro a <;>
    simp [delete_run_data, List.mem_filter]

/-- Claim C9 (code bug), evaluation at the failing input: with two
`NULL`-classified steps and one empty-string-classified step, the `''`
group key is mapped to `"pending"` by `(row[0] or "pending")` and then
assigned (not added) into the pending bucket, overwriting the count of the
`NULL` group; the code reports `pending = 1`, so the five buckets sum to 1
while there are 3 steps — the claim requires `pending = 3` and sum = total. -/
theorem c9_stats_bug :
    classification_counts c9Store = ⟨0, 0, 0, 0, 1⟩
    ∧ c9Store.steps.length = 3
    ∧ ((classification_counts c9Store).architectural
        + (classification_counts c9Store).implementation
        + (classification_counts c9Store).clean_pass
        + (classification_counts c9Store).ambiguous
        + (classification_counts c9Store).pending ≠ c9Store.steps.length) := by
  refine ⟨by decide, by decide, by decide⟩

/-- Claim C6 (code bug), evaluation at the failing input: the query counts
the step once in `total` (`COUNT(DISTINCT s.id)`) but counts each join row
in `self_corrected` (a plain `SUM` over the joined failures), so one step
with two `timeout` failures reports `total = 1`, `self_corrected = 2` and
rate `2.0` — not the fraction of self-corrected steps (1.0), and above 1. -/
theorem c6_patterns_bug :
    self_correction c6Store = [⟨"timeout", 1, 2, 0, 2⟩]
    ∧ ¬ ((2 : Rat) ≤ 1) := by
  refine ⟨by decide, by decide⟩

theorem ingestList_length (force : Bool) (now : String) :
    ∀ (files : List ReportFile) (st : Store),
      (ingestList force now st files).2.length = files.length
  | [], _ => rfl
  | f :: fs, st => by
    simp only [ingestList, List.length_cons]
    rw [ingestList_length force now fs]

theorem tally_sum : ∀ outs : List Outcome,
    (tally outs).ingested + (tally outs).skipped + (tally outs).errors
      = outs.length
  | [] => rfl
  | o :: os => by
    have ih := tally_sum os
    cases o <;> simp only [tally, List.length_cons] <;> omega

/-- Claim C10: when the reports directory exists, every discovered file
reaches exactly one terminal outcome, so the three counters sum to the
number of discovered files (the per-file outcome list has exactly one entry
per file); when the directory is missing, or no file matches the glob, the
result is all-zero counts with the store untouched. -/
theorem c10_outcome_counts (force : Bool) (now : String)
    (files : List ReportFile) (st : Store) :
    ingest_reports force now false files st = (st, ⟨0, 0, 0⟩)
    ∧ ((ingest_reports force now true files st).2.ingested
        + (ingest_reports force now true files st).2.skipped
        + (ingest_reports force now true files st).2.errors = files.length)
    ∧ ingest_reports force now true [] st = (st, ⟨0, 0, 0⟩)
    ∧ (ingestList force now st files).2.length = files.length := by
  refine ⟨rfl, ?_, rfl, ingestList_length force now files st⟩
  by_cases h : files = []
  · subst h; rfl
  · have hne : files.isEmpty = false := by
      cases files with
      | nil => exact absurd rfl h
      | cons a l => rfl
    simp only [ingest_reports, Bool.not_true, Bool.false_eq_true, if_false, hne]
    rw [tally_sum, ingestList_length]

theorem processFile_errored (force : Bool) (now : String) (st : Store)
    (f : ReportFile) (st2 : Store)
    (h : processFile force now st f = (st2, .errored)) : st2 = st := by
  cases f with
  | malformed =>
    simp only [processFile] at h
    exact (Prod.mk.injEq _ _ _ _ ▸ h).1.symm
  | parsed data =>
    cases htr : truthy data.run_id with
    | none =>
      simp only [processFile, htr] at h
      exact (Prod.mk.injEq _ _ _ _ ▸ h).1.symm
    | some rid =>
      simp only [processFile, htr] at h
      by_cases hskip : (!force && run_exists st rid) = true
      · rw [if_pos hskip] at h
        exact absurd (Prod.mk.injEq _ _ _ _ ▸ h).2 (by simp)
      · rw [if_neg hskip] at h
        cases hing : ingest_single_report now
            (if force && run_exists st rid then delete_run_data st rid else st) data with
        | ok st1 =>
          rw [hing] at h
          exact absurd (Prod.mk.injEq _ _ _ _ ▸ h).2 (by simp)
        | error e =>
          rw [hing] at h
          exact (Prod.mk.injEq _ _ _ _ ▸ h).1.symm

/-- Claim C3: per-file error isolation — a parse failure or missing run id
makes the file an error with the store unchanged; every error outcome
leaves the store unchanged; after an error the remaining files are
processed exactly as if the failing file were absent; and an error outcome
increments exactly the `errors` counter.  (`ingest_reports` is a total
function in this embedding: the per-file `except` clauses of the loop catch
every per-file failure, so no per-file failure escapes.) -/
theorem c3_error_isolation (force : Bool) (now : String) (st : Store)
    (data : Report) (f : ReportFile) (fs : List ReportFile) :
    processFile force now st .malformed = (st, .errored)
    ∧ (truthy data.run_id = none →
        processFile force now st (.parsed data) = (st, .errored))
    ∧ (∀ st2, processFile force now st f = (st2, .errored) → st2 = st)
    ∧ ((processFile force now st f).2 = .errored →
        ingestList force now st (f :: fs)
          = ((ingestList force now st fs).1,
              .errored :: (ingestList force now st fs).2))
    ∧ (tally (.errored :: (ingestList force now st fs).2)).errors
        = (tally (ingestList force now st fs).2).errors + 1
    ∧ (tally (.errored :: (ingestList force now st fs).2)).ingested
        = (tally (ingestList force now st fs).2).ingested := by
  refine ⟨rfl, ?_, fun st2 h => processFile_errored force now st f st2 h, ?_, rfl, rfl⟩
  · intro h
    simp [processFile, h]
  · intro h
    cases hp : processFile force now st f with
    | mk st2 o =>
      rw [hp] at h
      simp only at h
      subst h
      have hst : st2 = st := processFile_errored force now st f st2 hp
      subst hst
      simp only [ingestList, hp]

theorem truthy_some {o : Option String} {r : String} (h : truthy o = some r) :
    o = some r ∧ r ≠ "" := by
  cases o with
  | none => simp [truthy] at h
  | some s =>
    by_cases hs : s = ""
    · simp [truthy, hs] at h
    · simp only [truthy, hs, if_false] at h
      obtain rfl := Option.some.inj h
      exact ⟨rfl, hs⟩

theorem insertRun_ok (st : Store) (r : RunRecord) (st2 : Store)
    (h : insertRun st r = .ok st2) :
    st2 = { st with runs := st.runs ++ [r] } := by
  unfold insertRun at h
  by_cases hc : st.runs.any (fun x => x.run_id == r.run_id) = true
  · rw [if_pos hc] at h
    simp at h
  · rw [if_neg hc] at h
    exact (Except.ok.inj h).symm

theorem insertStep_ok (st : Store) (s : StepRecord) (st2 : Store)
    (h : insertStep st s = .ok st2) :
    st2 = { st with steps := st.steps ++ [s] } := by
  unfold insertStep at h
  by_cases hc : st.steps.any (fun x => x.id == s.id) = true
  · rw [if_pos hc] at h
    simp at h
  · rw [if_neg hc] at h
    exact (Except.ok.inj h).symm

theorem insertStepList_ok : ∀ (l : List StepRecord) (st st2 : Store),
    insertStepList st l = .ok st2 → st2 = { st with steps := st.steps ++ l }
  | [], st, st2, h => by
    simp only [insertStepList] at h
    obtain rfl := Except.ok.inj h
    cases st
    simp
  | s :: rest, st, st2, h => by
    simp only [insertStepList] at h
    cases hins : insertStep st s with
    | error e => rw [hins] at h; simp at h
    | ok st1 =>
      rw [hins] at h
      have h1 := insertStep_ok st s st1 hins
      have h2 := insertStepList_ok rest st1 st2 h
      subst h1
      rw [h2]
      cases st
      simp

theorem ingest_single_report_ok (now : String) (st : Store) (data : Report)
    (st2 : Store) (h : ingest_single_report now st data = .ok st2) :
    ∃ rid, data.run_id = some rid ∧ st2 = expectedIngest now data rid st := by
  cases hr : data.run_id with
  | none =>
    simp only [ingest_single_report, hr] at h
    exact Except.noConfusion h
  | some rid =>
    simp only [ingest_single_report, hr] at h
    refine ⟨rid, rfl, ?_⟩
    cases hrun : insertRun st (mkRunRecord now data rid) with
    | error e =>
      simp only [hrun] at h
      exact Except.noConfusion h
    | ok st1 =>
      simp only [hrun] at h
      cases hsteps : insertStepList st1 (data.step_outcomes.map (mkStepRecord data rid)) with
      | error e =>
        simp only [hsteps] at h
        exact Except.noConfusion h
      | ok stx =>
        simp only [hsteps, Except.ok.injEq] at h
        have h1 := insertRun_ok st _ st1 hrun
        have h2 := insertStepList_ok _ st1 stx hsteps
        subst h
        subst h1
        subst h2
        cases st
        simp [expectedIngest]

theorem processFile_parsed_ingested (force : Bool) (now : String) (st : Store)
    (data : Report) (st2 : Store)
    (hp : processFile force now st (.parsed data) = (st2, .ingested)) :
    ∃ rid, truthy data.run_id = some rid ∧
      ingest_single_report now
        (if force && run_exists st rid then delete_run_data st rid else st) data
      = .ok st2 := by
  cases htr : truthy data.run_id with
  | none =>
    simp only [processFile, htr] at hp
    exact absurd (Prod.mk.injEq _ _ _ _ ▸ hp).2 (by simp)
  | some rid =>
    simp only [processFile, htr] at hp
    refine ⟨rid, rfl, ?_⟩
    by_cases hskip : (!force && run_exists st rid) = true
    · rw [if_pos hskip] at hp
      exact absurd (Prod.mk.injEq _ _ _ _ ▸ hp).2 (by simp)
    · rw [if_neg hskip] at hp
      cases hing : ingest_single_report now
          (if force && run_exists st rid then delete_run_data st rid else st) data with
      | ok st1 =>
        rw [hing] at hp
        have hp2 : st1 = st2 := congrArg Prod.fst hp
        rw [hp2]
      | error e =>
        rw [hing] at hp
        have hp2 : Outcome.errored = Outcome.ingested := congrArg Prod.snd hp
        exact absurd hp2 (by simp)

/-- Claim C2 (per-report atomicity): when the ingestion of a parsed report
succeeds, the resulting store extends the pre-transaction store (the
original store, after the cascade deletion of the prior run's records when
`force` applies) by exactly one run record, one step record per
step-outcome entry, one failure record per failure-detail entry and one
web-search record per web-search entry, in order; when any write fails, the
whole transaction is rolled back and the store is exactly the original —
the force-mode deletion included. -/
theorem c2_atomicity (force : Bool) (now : String) (st : Store)
    (data : Report) (rid : String) (h : truthy data.run_id = some rid) :
    ((processFile force now st (.parsed data)).2 = .ingested →
      (processFile force now st (.parsed data)).1
        = expectedIngest now data rid
            (if force && run_exists st rid then delete_run_data st rid else st))
    ∧ ((processFile force now st (.parsed data)).2 = .errored →
      (processFile force now st (.parsed data)).1 = st) := by
  obtain ⟨hrid, _⟩ := truthy_some h
  constructor
  · intro hout
    cases hp : processFile force now st (.parsed data) with
    | mk st2 o =>
      rw [hp] at hout
      simp only at hout
      subst hout
      obtain ⟨rid2, htr2, hok⟩ := processFile_parsed_ingested force now st data st2 hp
      rw [h] at htr2
      obtain rfl := Option.some.inj htr2
      obtain ⟨rid3, hrid3, hst⟩ := ingest_single_report_ok _ _ _ _ hok
      rw [hrid] at hrid3
      obtain rfl := Option.some.inj hrid3
      simpa using hst
  · intro hout
    cases hp : processFile force now st (.parsed data) with
    | mk st2 o =>
      rw [hp] at hout
      simp only at hout
      subst hout
      simpa using processFile_errored force now st _ st2 hp

theorem StoreSub.rfl (A : Store) : StoreSub A A :=
  ⟨fun _ h => h, fun _ h => h⟩

theorem StoreSub.trans {A B C : Store} (h1 : StoreSub A B) (h2 : StoreSub B C) :
    StoreSub A C :=
  ⟨fun r hr => h2.1 r (h1.1 r hr), fun s hs => h2.2 s (h1.2 s hs)⟩

theorem run_exists_mono {A B : Store} (h : StoreSub A B) {rid : String}
    (he : run_exists A rid = true) : run_exists B rid = true := by
  rcases List.any_eq_true.mp he with ⟨r, hr, hbeq⟩
  exact List.any_eq_true.mpr ⟨r, h.1 r hr, hbeq⟩

/-- A step-insert conflict persists in any larger store: if the sequential
step inserts fail from `A`, they also fail from any store whose steps
include those of `A`. -/
theorem insertStepList_error_mono :
    ∀ (l : List StepRecord) (A B : Store),
      (∀ s ∈ A.steps, s ∈ B.steps) → ∀ e,
      insertStepList A l = .error e → ∃ e2, insertStepList B l = .error e2
  | [], A, B, _, e, h => by
    simp only [insertStepList] at h
    exact Except.noConfusion h
  | s :: rest, A, B, hsub, e, h => by
    simp only [insertStepList] at h
    cases hA : insertStep A s with
    | error eA =>
      have hconfA : A.steps.any (fun x => x.id == s.id) = true := by
        by_contra hc
        have hok : insertStep A s = .ok { A with steps := A.steps ++ [s] } := by
          simp [insertStep, hc]
        rw [hok] at hA
        exact Except.noConfusion hA
      have hconfB : B.steps.any (fun x => x.id == s.id) = true := by
        rcases List.any_eq_true.mp hconfA with ⟨x, hx, hbeq⟩
        exact List.any_eq_true.mpr ⟨x, hsub x hx, hbeq⟩
      refine ⟨"UNIQUE constraint failed: steps.id", ?_⟩
      simp only [insertStepList]
      rw [show insertStep B s = .error "UNIQUE constraint failed: steps.id" from by
        simp [insertStep, hconfB]]
    | ok A1 =>
      rw [hA] at h
      have hA1 := insertStep_ok A s A1 hA
      by_cases hconfB : B.steps.any (fun x => x.id == s.id) = true
      · refine ⟨"UNIQUE constraint failed: steps.id", ?_⟩
        simp only [insertStepList]
        rw [show insertStep B s = .error "UNIQUE constraint failed: steps.id" from by
          simp [insertStep, hconfB]]
      · have hB : insertStep B s = .ok { B with steps := B.steps ++ [s] } := by
          simp [insertStep, hconfB]
        have hsub2 : ∀ x ∈ A1.steps, x ∈ ({ B with steps := B.steps ++ [s] } : Store).steps := by
          subst hA1
          intro x hx
          simp only [List.mem_append, List.mem_singleton] at hx ⊢
          rcases hx with hx | hx
          · exact Or.inl (hsub x hx)
          · exact Or.inr hx
        obtain ⟨e2, he2⟩ := insertStepList_error_mono rest A1 _ hsub2 e h
        refine ⟨e2, ?_⟩
        simp only [insertStepList]
        rw [hB]
        exact he2

/-- A failed single-report ingestion stays failed in any larger store that
still lacks the run: the run insert succeeds on both sides and the step
conflict persists. -/
theorem ingest_error_replay (now now2 : String) (A B : Store) (data : Report)
    (rid : String) (hrid : data.run_id = some rid)
    (hAex : run_exists A rid = false) (hBex : run_exists B rid = false)
    (hsub : ∀ s ∈ A.steps, s ∈ B.steps) (e : String)
    (h : ingest_single_report now A data = .error e) :
    ∃ e2, ingest_single_report now2 B data = .error e2 := by
  have hanyA : (A.runs.any (fun x => x.run_id == rid)) = false := hAex
  have hanyB : (B.runs.any (fun x => x.run_id == rid)) = false := hBex
  have hA2 : ∀ x ∈ A.runs, ¬ x.run_id = rid := by simpa using hanyA
  have hB2 : ∀ x ∈ B.runs, ¬ x.run_id = rid := by simpa using hanyB
  have hrunA : insertRun A (mkRunRecord now data rid)
      = .ok { A with runs := A.runs ++ [mkRunRecord now data rid] } := by
    simp [insertRun, show (mkRunRecord now data rid).run_id = rid from rfl]
    exact hA2
  have hrunB : insertRun B (mkRunRecord now2 data rid)
      = .ok { B with runs := B.runs ++ [mkRunRecord now2 data rid] } := by
    simp [insertRun, show (mkRunRecord now2 data rid).run_id = rid from rfl]
    exact hB2
  simp only [ingest_single_report, hrid, hrunA] at h
  cases hsteps : insertStepList { A with runs := A.runs ++ [mkRunRecord now data rid] }
      (data.step_outcomes.map (mkStepRecord data rid)) with
  | ok stx => rw [hsteps] at h; exact Except.noConfusion h
  | error eS =>
    obtain ⟨e2, he2⟩ := insertStepList_error_mono
      (data.step_outcomes.map (mkStepRecord data rid))
      { A with runs := A.runs ++ [mkRunRecord now data rid] }
      { B with runs := B.runs ++ [mkRunRecord now2 data rid] }
      (fun s hs => hsub s hs) eS hsteps
    refine ⟨e2, ?_⟩
    simp only [ingest_single_report, hrid, hrunB]
    rw [he2]

/-- Full inversion of one non-forced per-file step: the file is an error
leaving the store unchanged (malformed, missing run id, or failed
transaction against a store lacking the run), a skip leaving the store
unchanged (run already present), or a successful ingestion. -/
theorem processFile_false_cases (now : String) (st : Store) (f : ReportFile)
    (st2 : Store) (o : Outcome) (h : processFile false now st f = (st2, o)) :
    (o = .errored ∧ st2 = st ∧
      (f = .malformed
        ∨ (∃ data, f = .parsed data ∧ truthy data.run_id = none)
        ∨ (∃ data rid e, f = .parsed data ∧ truthy data.run_id = some rid
            ∧ run_exists st rid = false
            ∧ ingest_single_report now st data = .error e)))
    ∨ (o = .skipped ∧ st2 = st ∧
        (∃ data rid, f = .parsed data ∧ truthy data.run_id = some rid
          ∧ run_exists st rid = true))
    ∨ (o = .ingested ∧
        (∃ data rid, f = .parsed data ∧ truthy data.run_id = some rid
          ∧ run_exists st rid = false
          ∧ ingest_single_report now st data = .ok st2)) := by
  cases f with
  | malformed =>
    simp only [processFile] at h
    exact Or.inl ⟨(congrArg Prod.snd h).symm, (congrArg Prod.fst h).symm, Or.inl rfl⟩
  | parsed data =>
    cases htr : truthy data.run_id with
    | none =>
      simp only [processFile, htr] at h
      exact Or.inl ⟨(congrArg Prod.snd h).symm, (congrArg Prod.fst h).symm,
        Or.inr (Or.inl ⟨data, rfl, htr⟩)⟩
    | some rid =>
      simp only [processFile, htr] at h
      by_cases hex : run_exists st rid = true
      · have hcond : (!false && run_exists st rid) = true := by simp [hex]
        rw [if_pos hcond] at h
        exact Or.inr (Or.inl ⟨(congrArg Prod.snd h).symm, (congrArg Prod.fst h).symm,
          data, rid, rfl, htr, hex⟩)
      · have hexf : run_exists st rid = false := by
          cases hb : run_exists st rid with
          | true => exact absurd hb hex
          | false => rfl
        have hcond : ¬((!false && run_exists st rid) = true) := by simp [hexf]
        rw [if_neg hcond] at h
        have hst0 : (if (false && run_exists st rid) = true
            then delete_run_data st rid else st) = st := by simp
        rw [hst0] at h
        cases hing : ingest_single_report now st data with
        | ok st1 =>
          rw [hing] at h
          refine Or.inr (Or.inr ⟨(congrArg Prod.snd h).symm, data, rid, rfl, htr, hexf, ?_⟩)
          have hx : st1 = st2 := congrArg Prod.fst h
          rw [hing, hx]
        | error e =>
          rw [hing] at h
          exact Or.inl ⟨(congrArg Prod.snd h).symm, (congrArg Prod.fst h).symm,
            Or.inr (Or.inr ⟨data, rid, e, rfl, htr, hexf, hing⟩)⟩

theorem processFile_mono (now : String) (st : Store) (f : ReportFile)
    (st2 : Store) (o : Outcome) (h : processFile false now st f = (st2, o)) :
    StoreSub st st2 := by
  rcases processFile_false_cases now st f st2 o h with
    ⟨_, rfl, _⟩ | ⟨_, rfl, _⟩ | ⟨_, data, rid, hf, htr, hex, hok⟩
  · exact StoreSub.rfl _
  · exact StoreSub.rfl _
  · obtain ⟨rid2, hrid2, hshape⟩ := ingest_single_report_ok now st data st2 hok
    subst hshape
    constructor
    · intro r hr
      simp only [expectedIngest, List.mem_append]
      exact Or.inl hr
    · intro s hs
      simp only [expectedIngest, List.mem_append]
      exact Or.inl hs

theorem ingestList_mono (now : String) :
    ∀ (files : List ReportFile) (A : Store),
      StoreSub A (ingestList false now A files).1
  | [], A => StoreSub.rfl A
  | f :: fs, A => by
    cases hp : processFile false now A f with
    | mk A1 o =>
      have h1 : StoreSub A A1 := processFile_mono now A f A1 o hp
      have h2 : StoreSub A1 (ingestList false now A1 fs).1 := ingestList_mono now fs A1
      have hB : (ingestList false now A (f :: fs)).1 = (ingestList false now A1 fs).1 := by
        simp only [ingestList, hp]
      rw [hB]
      exact StoreSub.trans h1 h2

/-- Replaying one file against any store that extends both its call-1 input
and output stores yields no ingestion and leaves the store untouched;
files that did not error are skipped. -/
theorem replay_file (now now2 : String) (A C : Store) (f : ReportFile)
    (A2 : Store) (o : Outcome) (h : processFile false now A f = (A2, o))
    (hAC : StoreSub A C) (hA2C : StoreSub A2 C) :
    ∃ o2, processFile false now2 C f = (C, o2) ∧ o2 ≠ .ingested
      ∧ (o ≠ .errored → o2 = .skipped) := by
  rcases processFile_false_cases now A f A2 o h with
    ⟨ho, hst, herr⟩ | ⟨ho, hst, data, rid, hf, htr, hex⟩ | ⟨ho, data, rid, hf, htr, hex, hok⟩
  · subst ho
    rcases herr with hf | ⟨data, hf, htr⟩ | ⟨data, rid, e, hf, htr, hexf, hing⟩
    · subst hf
      exact ⟨.errored, rfl, by simp, fun hc => absurd rfl hc⟩
    · subst hf
      refine ⟨.errored, ?_, by simp, fun hc => absurd rfl hc⟩
      simp [processFile, htr]
    · subst hf
      by_cases hCex : run_exists C rid = true
      · refine ⟨.skipped, ?_, by simp, fun _ => rfl⟩
        simp [processFile, htr, hCex]
      · have hCexf : run_exists C rid = false := by
          cases hb : run_exists C rid with
          | true => exact absurd hb hCex
          | false => rfl
        obtain ⟨e2, he2⟩ := ingest_error_replay now now2 A C data rid
          (truthy_some htr).1 hexf hCexf hAC.2 e hing
        refine ⟨.errored, ?_, by simp, fun hc => absurd rfl hc⟩
        simp [processFile, htr, hCexf, he2]
  · subst ho
    subst hf
    clear hst
    have hCex : run_exists C rid = true := run_exists_mono hAC hex
    refine ⟨.skipped, ?_, by simp, fun _ => rfl⟩
    simp [processFile, htr, hCex]
  · subst ho
    subst hf
    obtain ⟨rid2, hrid2, hshape⟩ := ingest_single_report_ok now A data A2 hok
    have hrid2b := (truthy_some htr).1
    rw [hrid2b] at hrid2
    obtain rfl := Option.some.inj hrid2
    have hA2ex : run_exists A2 rid = true := by
      subst hshape
      apply List.any_eq_true.mpr
      refine ⟨mkRunRecord now data rid, ?_, by
        simp [show (mkRunRecord now data rid).run_id = rid from rfl]⟩
      simp [expectedIngest]
    have hCex : run_exists C rid = true := run_exists_mono hA2C hA2ex
    refine ⟨.skipped, ?_, by simp, fun _ => rfl⟩
    simp [processFile, htr, hCex]

/-- Replaying a whole non-forced batch against its own final store ingests
nothing, leaves the store untouched, and skips every file that did not
error the first time. -/
theorem replay_list (now now2 : String) :
    ∀ (files : List ReportFile) (A C : Store),
      StoreSub A C → StoreSub (ingestList false now A files).1 C →
      (ingestList false now2 C files).1 = C
      ∧ List.Forall₂
          (fun o1 o2 => o2 ≠ Outcome.ingested
            ∧ (o1 ≠ Outcome.errored → o2 = Outcome.skipped))
          (ingestList false now A files).2 (ingestList false now2 C files).2
  | [], A, C, _, _ => ⟨rfl, List.Forall₂.nil⟩
  | f :: fs, A, C, hAC, hBC => by
    cases hp : processFile false now A f with
    | mk A1 o =>
      have hB : (ingestList false now A (f :: fs)).1 = (ingestList false now A1 fs).1 := by
        simp only [ingestList, hp]
      rw [hB] at hBC
      have hmonoRest : StoreSub A1 (ingestList false now A1 fs).1 := ingestList_mono now fs A1
      have hA1C : StoreSub A1 C := StoreSub.trans hmonoRest hBC
      obtain ⟨o2, ho2, hnotin, hskip⟩ := replay_file now now2 A C f A1 o hp hAC hA1C
      obtain ⟨hC1, hf2⟩ := replay_list now now2 fs A1 C hA1C hBC
      constructor
      · simp only [ingestList, ho2]
        exact hC1
      · have houts1 : (ingestList false now A (f :: fs)).2
            = o :: (ingestList false now A1 fs).2 := by
          simp only [ingestList, hp]
        have houts2 : (ingestList false now2 C (f :: fs)).2
            = o2 :: (ingestList false now2 C fs).2 := by
          simp only [ingestList, ho2]
        rw [houts1, houts2]
        exact List.Forall₂.cons ⟨hnotin, hskip⟩ hf2

theorem tally_ingested_zero : ∀ outs : List Outcome,
    (∀ o ∈ outs, o ≠ .ingested) → (tally outs).ingested = 0
  | [], _ => rfl
  | o :: os, h => by
    have ih := tally_ingested_zero os (fun x hx => h x (List.mem_cons_of_mem _ hx))
    cases o with
    | ingested => exact absurd rfl (h _ (List.mem_cons_self _ _))
    | skipped => exact ih
    | errored => exact ih

theorem forall₂_right_mem {R : Outcome → Outcome → Prop} :
    ∀ {l1 l2 : List Outcome}, List.Forall₂ R l1 l2 → ∀ b ∈ l2, ∃ a ∈ l1, R a b := by
  intro l1 l2 h
  induction h with
  | nil => intro b hb; exact absurd hb (List.not_mem_nil b)
  | cons hR _ ih =>
    intro b hb
    rcases List.mem_cons.mp hb with rfl | hb
    · exact ⟨_, List.mem_cons_self _ _, hR⟩
    · obtain ⟨a, ha, hRa⟩ := ih b hb
      exact ⟨a, List.mem_cons_of_mem _ ha, hRa⟩

/-- Claim C1 (idempotence of non-forced ingestion): a file whose (truthy)
run id already exists in the store is skipped with the store unchanged;
and re-running a non-forced batch over the unchanged file set against the
store produced by the first run leaves the store identical, ingests
nothing, and skips every file that the first run ingested or skipped —
both at the loop level (per-file outcomes) and at the `ingest_reports`
level (counters). -/
theorem c1_idempotence (now now2 : String) (st : Store) (files : List ReportFile)
    (data : Report) (rid : String) :
    (truthy data.run_id = some rid → run_exists st rid = true →
      processFile false now st (.parsed data) = (st, .skipped))
    ∧ ((ingestList false now2 (ingestList false now st files).1 files).1
        = (ingestList false now st files).1)
    ∧ (tally (ingestList false now2 (ingestList false now st files).1 files).2).ingested = 0
    ∧ List.Forall₂
        (fun o1 o2 => o2 ≠ Outcome.ingested
          ∧ (o1 ≠ Outcome.errored → o2 = Outcome.skipped))
        (ingestList false now st files).2
        (ingestList false now2 (ingestList false now st files).1 files).2
    ∧ (∀ dirE : Bool,
        (ingest_reports false now2 dirE files
            (ingest_reports false now dirE files st).1).1
          = (ingest_reports false now dirE files st).1
        ∧ (ingest_reports false now2 dirE files
            (ingest_reports false now dirE files st).1).2.ingested = 0) := by
  obtain ⟨hfix, hforall⟩ := replay_list now now2 files st (ingestList false now st files).1
    (ingestList_mono now files st) (StoreSub.rfl _)
  have hzero : (tally (ingestList false now2 (ingestList false now st files).1 files).2).ingested = 0 := by
    apply tally_ingested_zero
    intro o ho
    obtain ⟨a, _, hR⟩ := forall₂_right_mem hforall o ho
    exact hR.1
  refine ⟨?_, hfix, hzero, hforall, ?_⟩
  · intro htr hex
    simp [processFile, htr, hex]
  · intro dirE
    cases dirE with
    | false => exact ⟨rfl, rfl⟩
    | true =>
      cases hfi : files with
      | nil => exact ⟨rfl, rfl⟩
      | cons f fs =>
        have hne : (f :: fs).isEmpty = false := rfl
        constructor
        · simp only [ingest_reports, Bool.not_true, Bool.false_eq_true, if_false, hne]
          rw [← hfi, hfix]
        · simp only [ingest_reports, Bool.not_true, Bool.false_eq_true, if_false, hne]
          rw [← hfi, hzero]

theorem c1_witness :
    processFile false "t1" (ingestList false "t0" ⟨[], [], [], []⟩ [.parsed c1Data]).1
        (.parsed c1Data)
      = ((ingestList false "t0" ⟨[], [], [], []⟩ [.parsed c1Data]).1, .skipped)
    ∧ (tally (ingestList false "t1"
        (ingestList false "t0" ⟨[], [], [], []⟩ [.parsed c1Data]).1 [.parsed c1Data]).2).ingested
      = 0 := by
  have h := c1_idempotence "t0" "t1" ⟨[], [], [], []⟩ [.parsed c1Data] c1Data "w1"
  have h2 := c1_idempotence "t1" "t1"
    (ingestList false "t0" ⟨[], [], [], []⟩ [.parsed c1Data]).1 [] c1Data "w1"
  exact ⟨h2.1 (by decide) (by decide), h.2.2.1⟩

theorem c3_witness :
    processFile false "t0" ⟨[], [], [], []⟩ (.parsed ({} : Report))
      = (⟨[], [], [], []⟩, .errored)
    ∧ ingestList false "t0" ⟨[], [], [], []⟩ [.malformed, .parsed c1Data]
        = ((ingestList false "t0" ⟨[], [], [], []⟩ [.parsed c1Data]).1,
            .errored :: (ingestList false "t0" ⟨[], [], [], []⟩ [.parsed c1Data]).2)
    ∧ (⟨[], [], [], []⟩ : Store) = ⟨[], [], [], []⟩ := by
  have h := c3_error_isolation false "t0" ⟨[], [], [], []⟩ ({} : Report)
    .malformed [.parsed c1Data]
  exact ⟨h.2.1 (by decide), h.2.2.2.1 (by decide), h.2.2.1 ⟨[], [], [], []⟩ (by decide)⟩

theorem c2_witness :
    (processFile false "t0" ⟨[], [], [], []⟩ (.parsed c2Data)).1
      = expectedIngest "t0" c2Data "r1"
          (if false && run_exists ⟨[], [], [], []⟩ "r1"
            then delete_run_data ⟨[], [], [], []⟩ "r1" else ⟨[], [], [], []⟩)
    ∧ (processFile false "t0" c2ConflictStore (.parsed c2Data)).1 = c2ConflictStore := by
  constructor
  · exact (c2_atomicity false "t0" ⟨[], [], [], []⟩ c2Data "r1" (by decide)).1 (by decide)
  · exact (c2_atomicity false "t0" c2ConflictStore c2Data "r1" (by decide)).2 (by decide)

theorem c8_witness :
    (mkRunRecord "t0" { run_id := some "b" } "b") ∈ (delete_run_data c8Store "a").runs
    ∧ (mkRunRecord "t0" { run_id := some "a" } "a") ∉ (delete_run_data c8Store "a").runs
    ∧ (delete_run_data c8Store "a").failures = [] := by
  have h := c8_cascade_delete c8Store "a"
  refine ⟨?_, ?_, ?_⟩
  · exact (h.2.2.2.2.2.2.2 _).mpr ⟨by decide, by decide⟩
  · intro hmem
    exact ((h.2.2.2.2.2.2.2 _).mp hmem).2 rfl
  · rw [h.2.1]
    decide

end Dashboard
